import Mathlib

/-!
Verification of the `AddressMap` component of `bolt/Core/AddressMap.h`.

The C++ class stores two relations:

* `Address2AddressMap : std::unordered_multimap<uint64_t, uint64_t>` —
  a multi-valued map from input addresses to output addresses.  The
  header documents the one-to-many semantics: all output addresses for a
  given input address are preserved, `lookup()` returns the first
  (primary) output address and `lookupAll()` / `getAllOutputs()` return
  all of them.  The C++ standard, however, leaves the placement of a
  newly inserted equal-key element unspecified, and libstdc++ (the
  standard Linux toolchain) links it at the front of its equal-key
  group, so iteration visits equal-key entries in reverse insertion
  order.  The embedding therefore keeps the state as a `List (Nat × Nat)`
  recording one possible iteration order of the container (with
  `insertAddr` appending, as a canonical representative), and every
  theorem about the real program draws only conclusions invariant under
  permuting that list: membership, emptiness, multisets, and the
  relationship between `find` and `equal_range`, which read the same
  equal-key group in the same iteration order whatever it is.  Where a
  property turns on the placement itself, the libstdc++ behavior is
  modelled explicitly by `insertGroupFront` and evaluated separately.
* `Label2AddrMap : DenseMap<const MCSymbol *, uint64_t>` — a
  single-valued map keyed by the identity of an `MCSymbol`.  Labels are
  identity-comparable opaque handles, so we embed them as `Nat` handles
  and the map as an association list whose insertion keeps the first
  binding for a key (first-wins), with keys pairwise distinct.

`uint64_t` values only ever flow through the maps (no arithmetic is
performed on them), so they are embedded as plain `Nat`.
-/

namespace BoltAddressMap

/-- Representation of the `AddressMap` class: the two member relations. -/
structure AddressMap where
  Address2AddressMap : List (Nat × Nat)
  Label2AddrMap : List (Nat × Nat)
  deriving Repr, DecidableEq

namespace AddressMap

/-- Default-constructed `AddressMap`: both relations are empty. -/
def emptyMap : AddressMap := { Address2AddressMap := [], Label2AddrMap := [] }

/-- Embeds `std::optional<uint64_t> lookup(uint64_t InputAddress) const`:
`Address2AddressMap.find(InputAddress)` returns the first entry with the
key, and the function returns `It->second`, or `std::nullopt` when the
key is absent. -/
def lookup (m : AddressMap) (InputAddress : Nat) : Option Nat :=
  (m.Address2AddressMap.find? (fun p => p.1 == InputAddress)).map Prod.snd

/-- Embeds `std::optional<uint64_t> lookup(const MCSymbol *Symbol) const`:
`Label2AddrMap.find(Symbol)` on the single-valued label map. -/
def lookupSym (m : AddressMap) (Symbol : Nat) : Option Nat :=
  (m.Label2AddrMap.find? (fun p => p.1 == Symbol)).map Prod.snd

/-- Embeds `lookupAll(uint64_t InputAddress) const`, which returns
`Address2AddressMap.equal_range(InputAddress)`: the range of all entries
whose key equals `InputAddress`, in insertion order. -/
def lookupAll (m : AddressMap) (InputAddress : Nat) : List (Nat × Nat) :=
  m.Address2AddressMap.filter (fun p => p.1 == InputAddress)

/-- Embeds `std::vector<uint64_t> getAllOutputs(uint64_t InputAddress) const`:
starts from an empty vector and pushes `It->second` for every iterator
in the `lookupAll` range, front to back. -/
def getAllOutputs (m : AddressMap) (InputAddress : Nat) : List Nat :=
  (m.lookupAll InputAddress).foldl (fun Outputs p => Outputs ++ [p.2]) []

/-- Specification-side reading of `getAllOutputs`, for comparison: the
sequence of output-address values obtained by traversing the iterator
range returned by `lookupAll` from beginning to end. -/
def allOutputsOfRange (m : AddressMap) (InputAddress : Nat) : List Nat :=
  (m.lookupAll InputAddress).map Prod.snd

/-- Insertion into the multi-valued address relation
(`Address2AddressMap.insert`): a new entry for the pair is always added
and no existing entry is removed or modified.  The append keeps the
state list in insertion order as a canonical representative of the
container contents; the C++ standard does not promise any particular
placement of equal-key entries (and libstdc++ places them at the front
of their group, see `insertGroupFront`), so the theorems below use this
constructor only for conclusions that are invariant under permuting the
list. -/
def insertAddr (m : AddressMap) (input output : Nat) : AddressMap :=
  { m with Address2AddressMap := m.Address2AddressMap ++ [(input, output)] }

/-- Model of the equal-key placement that the C++ standard leaves
unspecified, as implemented by libstdc++ (the standard Linux toolchain):
`std::unordered_multimap::insert` links a newly inserted element at the
front of its equal-key group, so iterating the group visits entries in
reverse insertion order.  Used to evaluate order-sensitive claims
against the observed behavior of the container named in the header. -/
def insertGroupFront (input output : Nat) : List (Nat × Nat) → List (Nat × Nat)
  | [] => [(input, output)]
  | p :: ps =>
    if p.1 == input then (input, output) :: p :: ps
    else p :: insertGroupFront input output ps

/-- Builds the address relation by inserting a sequence of pairs with
the libstdc++ placement of `insertGroupFront`. -/
def ofListGroupFront (ps : List (Nat × Nat)) : AddressMap :=
  ps.foldl
    (fun m p =>
      { m with Address2AddressMap := insertGroupFront p.1 p.2 m.Address2AddressMap })
    emptyMap

/-- Insertion into the single-valued label relation (`DenseMap` insert,
which does not overwrite an existing binding): first-wins. -/
def insertLabel (m : AddressMap) (label output : Nat) : AddressMap :=
  if (m.Label2AddrMap.find? (fun p => p.1 == label)).isSome then m
  else { m with Label2AddrMap := m.Label2AddrMap ++ [(label, output)] }

/-- Builds an `AddressMap` by inserting a sequence of
(input address, output address) pairs in order. -/
def ofList (ps : List (Nat × Nat)) : AddressMap :=
  ps.foldl (fun m p => m.insertAddr p.1 p.2) emptyMap

/-- Operations that build an `AddressMap`: the map is populated only by
insertions into one of its two relations. -/
inductive Op where
  | insertAddr (input output : Nat)
  | recordLabel (label output : Nat)
  deriving Repr, DecidableEq

/-- Applies one building operation to a map state. -/
def applyOp (m : AddressMap) : Op → AddressMap
  | .insertAddr a b => m.insertAddr a b
  | .recordLabel l v => m.insertLabel l v

/-- Runs a sequence of building operations from the empty map; the
reachable states of an `AddressMap` are exactly the results of `runOps`. -/
def runOps (ops : List Op) : AddressMap :=
  ops.foldl applyOp emptyMap

/-- Modelled from the spec: the emit/parse protocol of
`AddressMap::emit` and `AddressMap::parse`, whose definitions live in
`bolt/lib/Core/AddressMap.cpp` and are not part of the sources at hand;
only their declarations appear in the header.  A symbolic reference (an
output-side placeholder later resolved by the linker) is an opaque
handle, embedded as `Nat`.  The object file holds two designated
sections; each section, when present, is a sequence of records pairing
an input entity with a symbolic reference, stored in emission order. -/
structure ObjectSections where
  addrSection : Option (List (Nat × Nat))
  labelSection : Option (List (Nat × Nat))
  deriving Repr, DecidableEq

/-- Modelled from the spec: `AddressMap::emit` (definition not in the
sources at hand) serializes the accumulated (input address, output
symbolic reference) and (input label, output symbolic reference)
associations as records appended in encounter order to the two
designated sections. -/
def emit (addrAssocs labelAssocs : List (Nat × Nat)) : ObjectSections :=
  { addrSection := some addrAssocs, labelSection := some labelAssocs }

/-- Modelled from the spec: the per-record loop of `AddressMap::parse`
over the address section.  Records are read in stored order; a record
whose symbolic reference the resolver fails to resolve is skipped and
parsing continues; every successfully resolved record is inserted into
the multi-valued address relation (duplicates allowed).  The resulting
list keeps the resolved records in stored order as a canonical
representative; the container the real parse fills iterates them in an
unspecified order, so theorems about the parsed relation are stated up
to permutation of this list. -/
def parseAddrRecords (resolve : Nat → Option Nat) : List (Nat × Nat) → List (Nat × Nat)
  | [] => []
  | r :: rs =>
    match resolve r.2 with
    | some addr => (r.1, addr) :: parseAddrRecords resolve rs
    | none => parseAddrRecords resolve rs

/-- Modelled from the spec: processing of a single label-section record
during `AddressMap::parse`.  A record whose symbolic reference the
resolver fails to resolve is skipped; a resolvable one is inserted into
the single-valued label relation (first-wins, see the design notes). -/
def parseLabelStep (resolve : Nat → Option Nat) (m : AddressMap) (r : Nat × Nat) : AddressMap :=
  match resolve r.2 with
  | some addr => m.insertLabel r.1 addr
  | none => m

/-- Modelled from the spec: the per-record loop of `AddressMap::parse`
over the label section, applying `parseLabelStep` to each record in
stored order. -/
def parseLabelRecords (resolve : Nat → Option Nat) (rs : List (Nat × Nat)) : List (Nat × Nat) :=
  (rs.foldl (parseLabelStep resolve) emptyMap).Label2AddrMap

/-- Modelled from the spec: `AddressMap::parse` (definition not in the
sources at hand).  When neither designated section exists the result is
"no value"; otherwise a fresh `AddressMap` is built from whichever
sections are present (a present-but-empty section contributes an empty
relation), resolving each record through the supplied resolver. -/
def parse (resolve : Nat → Option Nat) (obj : ObjectSections) : Option AddressMap :=
  match obj.addrSection, obj.labelSection with
  | none, none => none
  | a, l =>
    some { Address2AddressMap := parseAddrRecords resolve (a.getD []),
           Label2AddrMap := parseLabelRecords resolve (l.getD []) }

end AddressMap

/-! ## Helper lemmas about the embedded operations -/

namespace AddressMap

theorem foldl_insertAddr (ps : List (Nat × Nat)) (m : AddressMap) :
    (ps.foldl (fun m p => m.insertAddr p.1 p.2) m).Address2AddressMap =
      m.Address2AddressMap ++ ps := by
  induction ps generalizing m with
  | nil => simp
  | cons p ps ih =>
    rw [List.foldl_cons, ih]
    simp [insertAddr]

theorem foldl_insertAddr_labels (ps : List (Nat × Nat)) (m : AddressMap) :
    (ps.foldl (fun m p => m.insertAddr p.1 p.2) m).Label2AddrMap =
      m.Label2AddrMap := by
  induction ps generalizing m with
  | nil => simp
  | cons p ps ih =>
    rw [List.foldl_cons, ih]
    simp [insertAddr]

@[simp] theorem ofList_addr (ps : List (Nat × Nat)) :
    (ofList ps).Address2AddressMap = ps := by
  simpa [ofList, emptyMap] using foldl_insertAddr ps emptyMap

@[simp] theorem ofList_labels (ps : List (Nat × Nat)) :
    (ofList ps).Label2AddrMap = [] := by
  simpa [ofList, emptyMap] using foldl_insertAddr_labels ps emptyMap

theorem foldl_push {α : Type} (f : α → Nat) (l : List α) (acc : List Nat) :
    l.foldl (fun Outputs p => Outputs ++ [f p]) acc = acc ++ l.map f := by
  induction l generalizing acc with
  | nil => simp
  | cons p l ih => simp [ih]

/-- Pointwise description of `getAllOutputs`: the values of the
`lookupAll` range, in order. -/
theorem getAllOutputs_eq (m : AddressMap) (a : Nat) :
    m.getAllOutputs a = (m.lookupAll a).map Prod.snd := by
  rw [getAllOutputs, foldl_push]
  simp

theorem find?_eq_head?_filter (l : List (Nat × Nat)) (q : Nat × Nat → Bool) :
    l.find? q = (l.filter q).head? := by
  induction l with
  | nil => rfl
  | cons p l ih =>
    cases hq : q p
    · rw [List.find?_cons_of_neg _ (by simp [hq]), List.filter_cons_of_neg (by simp [hq]), ih]
    · rw [List.find?_cons_of_pos _ hq, List.filter_cons_of_pos hq]
      simp

/-- Behaviour of `lookup` as head of the filtered entry list. -/
theorem lookup_eq_head? (m : AddressMap) (a : Nat) :
    m.lookup a = ((m.Address2AddressMap.filter (fun p => p.1 == a)).head?).map Prod.snd := by
  rw [lookup, find?_eq_head?_filter]

/-- Closed form of the address-section parsing loop: exactly the
resolvable records survive, in stored order, paired with their resolved
addresses. -/
theorem parseAddrRecords_eq_filterMap (resolve : Nat → Option Nat) (rs : List (Nat × Nat)) :
    parseAddrRecords resolve rs =
      rs.filterMap (fun r => (resolve r.2).map (fun v => (r.1, v))) := by
  induction rs with
  | nil => rfl
  | cons r rs ih =>
    rw [parseAddrRecords]
    cases hr : resolve r.2 <;> simp [List.filterMap_cons, hr, ih]

theorem parseAddrRecords_total (f : Nat → Nat) (rs : List (Nat × Nat)) :
    parseAddrRecords (fun s => some (f s)) rs = rs.map (fun r => (r.1, f r.2)) := by
  induction rs with
  | nil => rfl
  | cons r rs ih => simp [parseAddrRecords, ih]

theorem filter_key_map_value (f : Nat → Nat) (rs : List (Nat × Nat)) (a : Nat) :
    (rs.map (fun r => (r.1, f r.2))).filter (fun p => p.1 == a) =
      (rs.filter (fun p => p.1 == a)).map (fun r => (r.1, f r.2)) := by
  induction rs with
  | nil => rfl
  | cons r rs ih =>
    cases hr : (r.1 == a) <;>
      simp [List.filter_cons, hr, ih]

theorem insertLabel_keys_nodup (m : AddressMap) (l v : Nat)
    (h : (m.Label2AddrMap.map Prod.fst).Nodup) :
    ((m.insertLabel l v).Label2AddrMap.map Prod.fst).Nodup := by
  rw [insertLabel]
  by_cases hf : (m.Label2AddrMap.find? (fun p => p.1 == l)).isSome
  · simpa [hf] using h
  · have hno : ∀ p ∈ m.Label2AddrMap, ¬(p.1 == l) = true := by
      rw [← List.find?_eq_none]
      exact Option.not_isSome_iff_eq_none.mp hf
    have hl : l ∉ m.Label2AddrMap.map Prod.fst := by
      intro hmem
      rcases List.mem_map.mp hmem with ⟨p, hp, hpl⟩
      exact hno p hp (by simp [hpl])
    rw [if_neg hf]
    simp only [List.map_append]
    refine List.Nodup.append h (List.nodup_singleton l) ?_
    intro x hx hxl
    have hxl2 : x = l := by simpa using hxl
    exact hl (hxl2 ▸ hx)

theorem applyOp_keys_nodup (m : AddressMap) (op : Op)
    (h : (m.Label2AddrMap.map Prod.fst).Nodup) :
    ((applyOp m op).Label2AddrMap.map Prod.fst).Nodup := by
  cases op with
  | insertAddr a b => simpa [applyOp, insertAddr] using h
  | recordLabel l v => exact insertLabel_keys_nodup m l v h

theorem foldl_applyOp_keys_nodup (ops : List Op) (m : AddressMap)
    (h : (m.Label2AddrMap.map Prod.fst).Nodup) :
    (((ops.foldl applyOp m).Label2AddrMap).map Prod.fst).Nodup := by
  induction ops generalizing m with
  | nil => simpa using h
  | cons op ops ih => exact ih (applyOp m op) (applyOp_keys_nodup m op h)

/-- Invariant: in every reachable state the label relation has pairwise
distinct keys, i.e. it is single-valued. -/
theorem runOps_label_keys_nodup (ops : List Op) :
    (((runOps ops).Label2AddrMap).map Prod.fst).Nodup :=
  foldl_applyOp_keys_nodup ops emptyMap (by simp [emptyMap])

theorem find?_of_mem_of_nodup_keys (L : List (Nat × Nat)) (l v : Nat)
    (hnd : (L.map Prod.fst).Nodup) (hm : (l, v) ∈ L) :
    L.find? (fun p => p.1 == l) = some (l, v) := by
  induction L with
  | nil => cases hm
  | cons q L ih =>
    rcases List.mem_cons.mp hm with hq | hq
    · subst hq
      exact List.find?_cons_of_pos L (by simp)
    · have hnd2 : q.1 ∉ L.map Prod.fst ∧ (L.map Prod.fst).Nodup := by
        rw [List.map_cons, List.nodup_cons] at hnd
        exact hnd
      have hql : ¬(q.1 == l) = true := by
        intro hb
        have hq1 : q.1 = l := by simpa using hb
        have hmem : l ∈ L.map Prod.fst := List.mem_map.mpr ⟨(l, v), hq, rfl⟩
        apply hnd2.1
        rw [hq1]
        exact hmem
      rw [List.find?_cons_of_neg L hql]
      exact ih hnd2.2 hq

theorem foldl_applyOp_extends (more : List Op) (m : AddressMap) :
    (∃ r1, (more.foldl applyOp m).Address2AddressMap = m.Address2AddressMap ++ r1) ∧
    (∃ r2, (more.foldl applyOp m).Label2AddrMap = m.Label2AddrMap ++ r2) := by
  induction more generalizing m with
  | nil => exact ⟨⟨[], by simp⟩, ⟨[], by simp⟩⟩
  | cons op more ih =>
    rcases ih (applyOp m op) with ⟨⟨r1, h1⟩, ⟨r2, h2⟩⟩
    cases op with
    | insertAddr a b =>
      refine ⟨⟨[(a, b)] ++ r1, ?_⟩, ⟨r2, ?_⟩⟩
      · rw [List.foldl_cons, h1]; simp [applyOp, insertAddr]
      · rw [List.foldl_cons, h2]; simp [applyOp, insertAddr]
    | recordLabel l w =>
      by_cases hf : (m.Label2AddrMap.find? (fun p => p.1 == l)).isSome
      · refine ⟨⟨r1, ?_⟩, ⟨r2, ?_⟩⟩
        · rw [List.foldl_cons, h1]; simp [applyOp, insertLabel, hf]
        · rw [List.foldl_cons, h2]; simp [applyOp, insertLabel, hf]
      · refine ⟨⟨r1, ?_⟩, ⟨[(l, w)] ++ r2, ?_⟩⟩
        · rw [List.foldl_cons, h1]; simp [applyOp, insertLabel, hf]
        · rw [List.foldl_cons, h2]; simp [applyOp, insertLabel, hf]

theorem insertLabel_mem_mono (m : AddressMap) (l v x y : Nat)
    (h : (x, y) ∈ m.Label2AddrMap) : (x, y) ∈ (m.insertLabel l v).Label2AddrMap := by
  rw [insertLabel]
  by_cases hf : (m.Label2AddrMap.find? (fun p => p.1 == l)).isSome
  · simpa [hf] using h
  · rw [if_neg hf]
    exact List.mem_append_left _ h

theorem insertLabel_mem_inv (m : AddressMap) (l v x y : Nat)
    (h : (x, y) ∈ (m.insertLabel l v).Label2AddrMap) :
    (x, y) ∈ m.Label2AddrMap ∨ (x = l ∧ y = v) := by
  rw [insertLabel] at h
  by_cases hf : (m.Label2AddrMap.find? (fun p => p.1 == l)).isSome
  · left
    simpa [hf] using h
  · rw [if_neg hf] at h
    rcases List.mem_append.mp h with h1 | h1
    · exact Or.inl h1
    · right
      simpa using h1

theorem insertLabel_key_exists (m : AddressMap) (l v : Nat) :
    ∃ y, (l, y) ∈ (m.insertLabel l v).Label2AddrMap := by
  rw [insertLabel]
  by_cases hf : (m.Label2AddrMap.find? (fun p => p.1 == l)).isSome
  · rcases Option.isSome_iff_exists.mp hf with ⟨q, hq⟩
    have hmem := List.mem_of_find?_eq_some hq
    have hkey : q.1 = l := by simpa using List.find?_some hq
    refine ⟨q.2, ?_⟩
    rw [if_pos hf, ← hkey]
    exact hmem
  · refine ⟨v, ?_⟩
    rw [if_neg hf]
    exact List.mem_append_right _ (by simp)

theorem foldl_parseLabelStep_mono (resolve : Nat → Option Nat) (ls : List (Nat × Nat))
    (m : AddressMap) (x y : Nat) (h : (x, y) ∈ m.Label2AddrMap) :
    (x, y) ∈ (ls.foldl (parseLabelStep resolve) m).Label2AddrMap := by
  induction ls generalizing m with
  | nil => simpa using h
  | cons r ls ih =>
    rw [List.foldl_cons]
    apply ih
    cases hr : resolve r.2 with
    | none => simpa [parseLabelStep, hr] using h
    | some addr =>
      simp only [parseLabelStep, hr]
      exact insertLabel_mem_mono m r.1 addr x y h

theorem foldl_parseLabelStep_mem_inv (resolve : Nat → Option Nat) (ls : List (Nat × Nat))
    (m : AddressMap) (x y : Nat)
    (h : (x, y) ∈ (ls.foldl (parseLabelStep resolve) m).Label2AddrMap) :
    (x, y) ∈ m.Label2AddrMap ∨ ∃ r ∈ ls, r.1 = x ∧ resolve r.2 = some y := by
  induction ls generalizing m with
  | nil => exact Or.inl (by simpa using h)
  | cons r ls ih =>
    rw [List.foldl_cons] at h
    rcases ih (parseLabelStep resolve m r) h with h1 | h1
    · cases hr : resolve r.2 with
      | none =>
        rw [parseLabelStep, hr] at h1
        exact Or.inl h1
      | some addr =>
        simp only [parseLabelStep, hr] at h1
        rcases insertLabel_mem_inv m r.1 addr x y h1 with h2 | h2
        · exact Or.inl h2
        · refine Or.inr ⟨r, List.mem_cons_self r ls, h2.1.symm, ?_⟩
          rw [h2.2]
          exact hr
    · rcases h1 with ⟨r2, hr2, hx, hy⟩
      exact Or.inr ⟨r2, List.mem_cons_of_mem r hr2, hx, hy⟩

theorem foldl_parseLabelStep_key_exists (resolve : Nat → Option Nat)
    (ls : List (Nat × Nat)) (x : Nat) (m : AddressMap)
    (h : ∃ r ∈ ls, r.1 = x ∧ (resolve r.2).isSome = true) :
    ∃ y, (x, y) ∈ (ls.foldl (parseLabelStep resolve) m).Label2AddrMap := by
  induction ls generalizing m with
  | nil =>
    rcases h with ⟨r, hr, _⟩
    cases hr
  | cons q ls ih =>
    rw [List.foldl_cons]
    rcases h with ⟨r, hr, hx, hs⟩
    rcases List.mem_cons.mp hr with hq | hq
    · rcases Option.isSome_iff_exists.mp hs with ⟨addr, haddr⟩
      have hkey : ∃ y, (x, y) ∈ (parseLabelStep resolve m q).Label2AddrMap := by
        subst hq
        simp only [parseLabelStep, haddr]
        rw [← hx]
        exact insertLabel_key_exists m r.1 addr
      rcases hkey with ⟨y, hy⟩
      exact ⟨y, foldl_parseLabelStep_mono resolve ls _ x y hy⟩
    · exact ih (parseLabelStep resolve m q) ⟨r, hq, hx, hs⟩

end AddressMap

/-! ## Claims -/

open AddressMap

/-- C1: evaluation of the code at the failing input.  The claim requires
`lookupAll`/`getAllOutputs` to preserve insertion order, but the source
stores the relation in a `std::unordered_multimap`, whose equal-key
placement the C++ standard leaves unspecified; under the libstdc++
placement (new entries at the front of their equal-key group), inserting
0x1000 → 0x5000 and then 0x1000 → 0x5020 makes `getAllOutputs 0x1000`
return [0x5020, 0x5000] — the reverse of insertion order — and not the
insertion-ordered [0x5000, 0x5020] that the claim (and the documented
first/primary semantics) requires. -/
theorem lookupAll_reverses_insertion_libstdcxx :
    (ofListGroupFront [(0x1000, 0x5000), (0x1000, 0x5020)]).getAllOutputs 0x1000 =
      [0x5020, 0x5000] ∧
    (ofListGroupFront [(0x1000, 0x5000), (0x1000, 0x5020)]).getAllOutputs 0x1000 ≠
      [0x5000, 0x5020] := by
  decide

/-- C2: evaluation of the code at the failing input.  The claim (and the
header comment "Use lookup() to get the first (primary) output address")
requires `lookup` to return the first output address recorded, but under
the libstdc++ placement of `std::unordered_multimap` equal-key entries,
after inserting 0x1000 → 0x5000 and then 0x1000 → 0x5020, `find` hits the
front of the group and `lookup 0x1000` returns 0x5020, the last recorded
output address, not the first. -/
theorem lookup_returns_last_inserted_libstdcxx :
    (ofListGroupFront [(0x1000, 0x5000), (0x1000, 0x5020)]).lookup 0x1000 = some 0x5020 ∧
    (ofListGroupFront [(0x1000, 0x5000), (0x1000, 0x5020)]).lookup 0x1000 ≠ some 0x5000 := by
  decide

/-- C3: emitting a set of associations and then parsing the resulting
sections with a resolver that deterministically maps every symbolic
reference to a known address reconstructs an `AddressMap` whose
`getAllOutputs` (the traversal of `lookupAll`) at every input address is
exactly the resolved image of the associations originally emitted for
that input address — as a multiset (the claim's per-input sets), stated
up to permutation because the container's iteration order is
unspecified. -/
theorem emit_parse_round_trip_multiset (A L : List (Nat × Nat)) (f : Nat → Nat) (a : Nat) :
    ∃ m, parse (fun s => some (f s)) (emit A L) = some m ∧
      List.Perm (m.getAllOutputs a) ((A.filter (fun p => p.1 == a)).map (fun p => f p.2)) := by
  refine ⟨{ Address2AddressMap := parseAddrRecords (fun s => some (f s)) A,
            Label2AddrMap := parseLabelRecords (fun s => some (f s)) L }, rfl, ?_⟩
  rw [getAllOutputs_eq, lookupAll]
  show List.Perm
    (((parseAddrRecords (fun s => some (f s)) A).filter (fun p => p.1 == a)).map Prod.snd)
    ((A.filter (fun p => p.1 == a)).map (fun p => f p.2))
  rw [parseAddrRecords_total, filter_key_map_value, List.map_map]
  exact List.Perm.refl _

/-- C4: `parse` returns "no value" exactly when neither designated
section exists, and present-but-empty sections yield a present-but-empty
`AddressMap` rather than "no value". -/
theorem parse_none_iff_sections_absent (resolve : Nat → Option Nat) (obj : ObjectSections) :
    (parse resolve obj = none ↔ (obj.addrSection = none ∧ obj.labelSection = none)) ∧
    parse resolve { addrSection := some [], labelSection := some [] } = some emptyMap := by
  constructor
  · cases obj with
    | mk oa ol => cases oa <;> cases ol <;> simp [parse]
  · rfl

/-- C5: during `parse`, a record of either section whose symbolic
reference fails to resolve is skipped and excluded from the
reconstructed map, every other record's presence is unaffected, and the
parse of present sections always produces a map (it never aborts because
of a bad record): the parsed address relation is, up to the container's
unspecified iteration order, exactly the resolvable address records, and
a label is present in the parsed label relation exactly when it has a
resolvable label record, every binding tracing back to one. -/
theorem parse_excludes_exactly_unresolvable (resolve : Nat → Option Nat)
    (rs ls : List (Nat × Nat)) :
    ∃ m, parse resolve { addrSection := some rs, labelSection := some ls } = some m ∧
      List.Perm m.Address2AddressMap
        (rs.filterMap (fun r => (resolve r.2).map (fun v => (r.1, v)))) ∧
      (∀ l, (∃ v, (l, v) ∈ m.Label2AddrMap) ↔
        ∃ r ∈ ls, r.1 = l ∧ (resolve r.2).isSome = true) ∧
      (∀ l v, (l, v) ∈ m.Label2AddrMap → ∃ r ∈ ls, r.1 = l ∧ resolve r.2 = some v) := by
  refine ⟨{ Address2AddressMap := parseAddrRecords resolve rs,
            Label2AddrMap := parseLabelRecords resolve ls }, rfl, ?_, ?_, ?_⟩
  · show List.Perm (parseAddrRecords resolve rs) _
    rw [parseAddrRecords_eq_filterMap]
  · intro l
    constructor
    · rintro ⟨v, hv⟩
      have hv2 : (l, v) ∈ (ls.foldl (parseLabelStep resolve) emptyMap).Label2AddrMap := hv
      rcases foldl_parseLabelStep_mem_inv resolve ls emptyMap l v hv2 with h1 | h1
      · simp [emptyMap] at h1
      · rcases h1 with ⟨r, hr, hx, hres⟩
        refine ⟨r, hr, hx, ?_⟩
        rw [hres]
        rfl
    · intro h
      exact foldl_parseLabelStep_key_exists resolve ls l emptyMap h
  · intro l v hv
    have hv2 : (l, v) ∈ (ls.foldl (parseLabelStep resolve) emptyMap).Label2AddrMap := hv
    rcases foldl_parseLabelStep_mem_inv resolve ls emptyMap l v hv2 with h1 | h1
    · simp [emptyMap] at h1
    · exact h1

/-- C6: a lookup with an input address or label that was never recorded
returns "not found" (`none`) or the empty sequence; the operations are
total functions, so no lookup raises an error on an unrecorded key. -/
theorem lookup_unrecorded_not_found (m : AddressMap) (a l : Nat)
    (ha : ∀ p ∈ m.Address2AddressMap, p.1 ≠ a)
    (hl : ∀ q ∈ m.Label2AddrMap, q.1 ≠ l) :
    m.lookup a = none ∧ m.getAllOutputs a = [] ∧ m.lookupSym l = none := by
  have hfa : m.Address2AddressMap.find? (fun p => p.1 == a) = none :=
    List.find?_eq_none.mpr (fun p hp => by simpa using ha p hp)
  have hfl : m.Label2AddrMap.find? (fun q => q.1 == l) = none :=
    List.find?_eq_none.mpr (fun q hq => by simpa using hl q hq)
  refine ⟨?_, ?_, ?_⟩
  · rw [lookup, hfa]; rfl
  · rw [getAllOutputs_eq, lookupAll]
    have hnil : m.Address2AddressMap.filter (fun p => p.1 == a) = [] :=
      List.filter_eq_nil_iff.mpr (fun p hp => by simpa using ha p hp)
    rw [hnil]
    rfl
  · rw [lookupSym, hfl]; rfl

/-- C6 witness: the theorem applied to a concrete map and unrecorded
keys. -/
theorem lookup_unrecorded_not_found_witness :
    (∀ p ∈ (ofList [(1, 2)]).Address2AddressMap, p.1 ≠ 5) ∧
    (∀ q ∈ (ofList [(1, 2)]).Label2AddrMap, q.1 ≠ 7) ∧
    ((ofList [(1, 2)]).lookup 5 = none ∧ (ofList [(1, 2)]).getAllOutputs 5 = [] ∧
      (ofList [(1, 2)]).lookupSym 7 = none) :=
  ⟨by decide, by decide,
    lookup_unrecorded_not_found (ofList [(1, 2)]) 5 7 (by decide) (by decide)⟩

/-- C7: no operation removes or modifies an inserted pair: after any
further sequence of building operations, the multiset of entries of each
relation of the reachable state contains the earlier one, so every
(input address, output address) pair and every label binding, once
inserted, is never updated or deleted for the lifetime of the map (the
container may permute its iteration order, which the multiset statement
is invariant under).  The lookup operations are `const` member functions
embedded as pure functions of the map state, so they cannot mutate the
relations and the same query on the same map always returns the same
result. -/
theorem inserted_pairs_never_removed (ops more : List Op) :
    ((runOps ops).Address2AddressMap : Multiset (Nat × Nat)) ≤
      ((runOps (ops ++ more)).Address2AddressMap : Multiset (Nat × Nat)) ∧
    ((runOps ops).Label2AddrMap : Multiset (Nat × Nat)) ≤
      ((runOps (ops ++ more)).Label2AddrMap : Multiset (Nat × Nat)) := by
  have hfold : runOps (ops ++ more) = more.foldl applyOp (runOps ops) := by
    rw [runOps, List.foldl_append, runOps]
  rcases foldl_applyOp_extends more (runOps ops) with ⟨⟨r1, h1⟩, ⟨r2, h2⟩⟩
  constructor
  · rw [hfold, h1]
    exact (List.sublist_append_left _ _).subperm
  · rw [hfold, h2]
    exact (List.sublist_append_left _ _).subperm

/-- C8: in every reachable state the label relation is single-valued: a
label bound to two output addresses is bound to the same address, and
`lookupSym` returns exactly that unique address. -/
theorem label_relation_single_valued (ops : List Op) (l v w : Nat)
    (hv : (l, v) ∈ (runOps ops).Label2AddrMap)
    (hw : (l, w) ∈ (runOps ops).Label2AddrMap) :
    v = w ∧ (runOps ops).lookupSym l = some v := by
  have hnd := runOps_label_keys_nodup ops
  have hfv := find?_of_mem_of_nodup_keys _ l v hnd hv
  have hfw := find?_of_mem_of_nodup_keys _ l w hnd hw
  constructor
  · have := hfv.symm.trans hfw
    simpa using this
  · rw [lookupSym, hfv]; rfl

/-- C8 witness: the theorem applied to a concrete operation sequence in
which the label 3 is recorded (and a duplicate recording is ignored). -/
theorem label_relation_single_valued_witness :
    ((3, 9) ∈ (runOps [Op.recordLabel 3 9, Op.recordLabel 3 11]).Label2AddrMap) ∧
    (9 = 9 ∧ (runOps [Op.recordLabel 3 9, Op.recordLabel 3 11]).lookupSym 3 = some 9) :=
  ⟨by decide,
    label_relation_single_valued [Op.recordLabel 3 9, Op.recordLabel 3 11] 3 9 9
      (by decide) (by decide)⟩

/-- C9: `getAllOutputs` returns exactly the sequence obtained by
traversing the iterator range returned by `lookupAll` from beginning to
end and collecting the second component of each entry: the two query
operations expose the same mapping. -/
theorem getAllOutputs_refines_lookupAll (m : AddressMap) (a : Nat) :
    m.getAllOutputs a = m.allOutputsOfRange a :=
  getAllOutputs_eq m a

/-- C10: `lookup` is consistent with `getAllOutputs`: it returns the
head of the `getAllOutputs` sequence, hence "not found" exactly when
that sequence is empty, and any address it returns is a member of that
sequence. -/
theorem lookup_consistent_with_getAllOutputs (m : AddressMap) (a : Nat) :
    m.lookup a = (m.getAllOutputs a).head? ∧
    (m.lookup a = none ↔ m.getAllOutputs a = []) ∧
    (∀ v, m.lookup a = some v → v ∈ m.getAllOutputs a) := by
  have hhead : m.lookup a = (m.getAllOutputs a).head? := by
    rw [getAllOutputs_eq, lookupAll, List.head?_map, lookup_eq_head?]
  refine ⟨hhead, ?_, ?_⟩
  · rw [hhead, List.head?_eq_none_iff]
  · intro v hv
    rw [hhead] at hv
    exact List.mem_of_mem_head? hv

/-- C10 witness: the theorem applied to a concrete map with two clones
of input address 1. -/
theorem lookup_consistent_with_getAllOutputs_witness :
    (ofList [(1, 2), (1, 3)]).lookup 1 = ((ofList [(1, 2), (1, 3)]).getAllOutputs 1).head? ∧
    (ofList [(1, 2), (1, 3)]).lookup 1 = some 2 ∧
    2 ∈ (ofList [(1, 2), (1, 3)]).getAllOutputs 1 :=
  ⟨(lookup_consistent_with_getAllOutputs (ofList [(1, 2), (1, 3)]) 1).1, by decide,
    (lookup_consistent_with_getAllOutputs (ofList [(1, 2), (1, 3)]) 1).2.2 2 (by decide)⟩

end BoltAddressMap
